import Mathlib

/-!
Verification development for the helper library in `src/utils/helpers.py`
(PID_Symbol_Detection repository).

The Python code is shallowly embedded: strings are lists of characters,
the filesystem pieces each function touches are passed explicitly, and
exceptions become explicit error values.  Third-party collaborators
(fastai's `get_files`, `natsort.natsorted`, PyMuPDF, PIL) are modelled at
the level of the contract the helper code relies on, following their
documented behaviour.
-/

deriving instance DecidableEq for Except

namespace PID

/-- Python strings, embedded as lists of characters. -/
abbrev PyStr := List Char

/-! ## POSIX path primitives (`os.path` / `pathlib`, as used by the code)

`os.path.basename p` returns the part of `p` after the last slash.
`os.path.dirname p` returns `p[:i]` where `i` is just past the last slash,
right-stripped of slashes unless the result consists only of slashes.
`os.path.join a b` returns `b` if `b` is absolute, `a ++ b` if `a` is empty
or ends in a slash, and `a ++ "/" ++ b` otherwise.
`os.path.splitext` splits off the extension at the last dot of the final
component, treating leading dots of that component as part of the name.
Both `splitext` call sites in the source apply it to a basename, so the
embedding defines it on slash-free strings. -/

/-- Embedding of `os.path.basename`: the suffix after the last slash. -/
def basenameL (p : PyStr) : PyStr :=
  (p.reverse.takeWhile (fun c => !(c == '/'))).reverse

/-- Embedding of `os.path.dirname`: everything up to the last slash, with trailing
slashes stripped unless the head is made of slashes only. -/
def dirnameL (p : PyStr) : PyStr :=
  let head := (p.reverse.dropWhile (fun c => !(c == '/'))).reverse
  if head.all (fun c => c == '/') then head
  else (head.reverse.dropWhile (fun c => c == '/')).reverse

/-- Embedding of `os.path.join` for a single right operand. -/
def joinL (a b : PyStr) : PyStr :=
  if b.head? = some '/' then b
  else if a = [] ∨ a.getLast? = some '/' then a ++ b
  else a ++ '/' :: b

/-- Embedding of `os.path.splitext` applied to a basename (no slash inside): returns
`(root, ext)`, where `ext` starts at the last dot, except that the leading
dots of the name never start an extension. -/
def splitextBase (b : PyStr) : PyStr × PyStr :=
  let leadingDots := b.takeWhile (fun c => c == '.')
  let rest := b.dropWhile (fun c => c == '.')
  if rest.contains '.' then
    (leadingDots ++ (rest.reverse.dropWhile (fun c => !(c == '.'))).reverse.dropLast,
     '.' :: (rest.reverse.takeWhile (fun c => !(c == '.'))).reverse)
  else (b, [])

/-! ## Natural sort (`natsort.natsorted`)

`natsorted` orders strings by splitting each into maximal runs of digits
and non-digits; digit runs compare by numeric value, other runs compare
lexicographically, and a digit run sorts before a non-digit run. -/

/-- Numeric value of a run of decimal digits. -/
def digitsVal (ds : List Char) : Nat :=
  ds.foldl (fun n c => 10 * n + (c.toNat - 48)) 0

/-- A finished chunk: a digit run becomes its numeric value, any other
run stays text; numeric chunks order before textual ones. -/
def mkChunk (isNum : Bool) (run : List Char) : Lex (Sum Nat (List Char)) :=
  if isNum then toLex (Sum.inl (digitsVal run)) else toLex (Sum.inr run)

/-- Tokenizer for the natural-sort key: walks the string, grouping
maximal runs of digits and of non-digits.  The state carries the kind and
the reversed characters of the run being grown. -/
def chunksLoop : Option (Bool × List Char) → PyStr → List (Lex (Sum Nat (List Char)))
  | none, [] => []
  | some (isNum, acc), [] => [mkChunk isNum acc.reverse]
  | none, c :: cs => chunksLoop (some (c.isDigit, [c])) cs
  | some (isNum, acc), c :: cs =>
    if c.isDigit = isNum then chunksLoop (some (isNum, c :: acc)) cs
    else mkChunk isNum acc.reverse :: chunksLoop (some (c.isDigit, [c])) cs

/-- The natural-sort key of a path string: its alternating numeric and
textual chunks. -/
def natKey (s : PyStr) : List (Lex (Sum Nat (List Char))) := chunksLoop none s

/-- The natural order on strings: comparison of natural-sort keys. -/
def natLe (a b : PyStr) : Prop := natKey a ≤ natKey b

instance : DecidableRel natLe :=
  fun a b => inferInstanceAs (Decidable (natKey a ≤ natKey b))

instance : IsTotal PyStr natLe := ⟨fun a b => le_total (natKey a) (natKey b)⟩

instance : IsTrans PyStr natLe := ⟨fun _ _ _ h1 h2 => le_trans h1 h2⟩

/-- Embedding of `natsort.natsorted`, modelled as a stable sort by the natural key. -/
def natsorted (l : List PyStr) : List PyStr := List.insertionSort natLe l

theorem length_natsorted (l : List PyStr) : (natsorted l).length = l.length :=
  (List.perm_insertionSort natLe l).length_eq

theorem sorted_natsorted (l : List PyStr) : (natsorted l).Sorted natLe :=
  List.sorted_insertionSort natLe l

/-! ## Directory model and `fastai`'s `get_files`

A dataset directory is modelled by its path, whether it exists
(`os.path.exists`), and the flat list of file names its recursive walk
yields.  `get_files` keeps the non-hidden files whose extension — the dot
plus the lowercased text after the last dot, as fastai computes it —
belongs to the allowed set, and returns them joined under the directory
path.  fastai's `setify` turns the string argument ".txt" into the
singleton set, embedded below as a one-element list. -/

structure Dir where
  path : PyStr
  present : Bool
  files : List PyStr

/-- fastai's extension key for a file name: a dot plus the lowercased
text after the last dot of the name. -/
def extKey (f : PyStr) : PyStr :=
  '.' :: ((f.reverse.takeWhile (fun c => !(c == '.'))).reverse.map Char.toLower)

/-- fastai skips hidden files (names starting with a dot). -/
def visibleFile (f : PyStr) : Bool := !(f.head? == some '.')

/-- fastai's `get_files` restricted to the walk already recorded in `Dir`. -/
def get_files (d : Dir) (extensions : List PyStr) : List PyStr :=
  (d.files.filter (fun f => visibleFile f && extensions.contains (extKey f))).map
    (fun f => joinL d.path f)

/-- Default `im_extensions`, the tuple of ".jpg", ".png" and ".tiff". -/
def defaultImExtensions : List PyStr :=
  [".jpg".toList, ".png".toList, ".tiff".toList]

/-- The ".txt" extension argument of the annotation scan. -/
def txtExtension : PyStr := ".txt".toList

/-- Exceptions the embedded functions can raise.  Message text is elided
as presentation-only, except that `nameError` records which variable
lookup failed. -/
inductive PyErr where
  | fileNotFound : PyErr
  | valueError : PyErr
  | nameError (missing : PyStr) : PyErr
deriving DecidableEq

/-- Embedding of `get_im_txt_pths` (helpers.py lines 13–49).  Note the two empty-list
branches: the source executes `raise ValueError(f"No images found in
{im_dir} ...")` and `raise ValueError(f"No annotation files found in
{txt_dir}")`, but neither `im_dir` nor `txt_dir` is defined anywhere in
the module or its star-imports, so evaluating the f-string raises
`NameError` before the `ValueError` is constructed. -/
def get_im_txt_pths (dataset_dir : Dir) (im_extensions : List PyStr) :
    Except PyErr (List PyStr × List PyStr) :=
  if !dataset_dir.present then .error .fileNotFound
  else
    let im_pths := natsorted (get_files dataset_dir im_extensions)
    let txt_pths := natsorted (get_files dataset_dir [txtExtension])
    if im_pths.length = 0 then .error (.nameError "im_dir".toList)
    else if txt_pths.length = 0 then .error (.nameError "txt_dir".toList)
    else if im_pths.length ≠ txt_pths.length then .error .valueError
    else .ok (im_pths, txt_pths)

/-- Embedding of `get_im_pths` (helpers.py lines 51–79).  Here the empty-list error
message only mentions `dataset_dir` and `im_extensions`, both defined, so
the `ValueError` really is raised. -/
def get_im_pths (dataset_dir : Dir) (im_extensions : List PyStr) :
    Except PyErr (List PyStr) :=
  if !dataset_dir.present then .error .fileNotFound
  else
    let im_pths := natsorted (get_files dataset_dir im_extensions)
    if im_pths.length = 0 then .error .valueError
    else .ok im_pths

/-! ## `copy_files_to_directory` (helpers.py lines 81–100)

The destination directory is modelled by its contents: a map from file
names to file contents (`Option Nat`, `none` meaning absent).  `mkdir`
with `exist_ok` is the creation of that map.  The source filesystem is a
map `src` from paths to contents; `src p = none` models a copy of `p`
raising (e.g. the file is missing).  `shutil.copy` writes the content
under the source's basename (`file_path.name`), overwriting.  The loop
returns the final contents together with `some p` when copying `p`
raised, the exception propagating with the loop abandoned. -/

abbrev DirState := PyStr → Option Nat

def copy_files_to_directory (src : PyStr → Option Nat) :
    List PyStr → DirState → DirState × Option PyStr
  | [], dest => (dest, none)
  | p :: ps, dest =>
    match src p with
    | some c =>
        copy_files_to_directory src ps
          (fun n => if n = basenameL p then some c else dest n)
    | none => (dest, some p)

/-- The state transformation of a run of successful copies (total
companion of the loop, used to describe its final states). -/
def applyCopies (src : PyStr → Option Nat) : List PyStr → DirState → DirState
  | [], dest => dest
  | p :: ps, dest =>
    applyCopies src ps (fun n => if n = basenameL p then src p else dest n)

/-! ## `save_pdf_page_as_image_from_dir` (helpers.py lines 103–152)

Each candidate file in the directory listing is a `PdfEntry`: its name and
the behaviour of the opaque PyMuPDF calls on it — whether `fitz.open`
succeeds, how many pages the document has, whether `get_pixmap` succeeds,
and whether `pix.save` succeeds.  The loop body sits inside
`try/except Exception`, so a failing step is caught and logged and the
loop continues; the embedding records, per document, the paths appended
to `img_paths` (the returned list), the paths whose `pix.save` actually
completed, the number of out-of-range-page warnings, and the number of
caught exceptions.  Note the source appends `image_path` to `img_paths`
*before* calling `pix.save`. -/

structure PdfEntry where
  name : PyStr
  openOk : Bool
  pageCount : Nat
  renderOk : Bool
  saveOk : Bool
deriving DecidableEq

structure RenderResult where
  img_paths : List PyStr
  written : List PyStr
  warnings : Nat
  errors : Nat
deriving DecidableEq

/-- The image path the code derives for a document:
`directory/<stem of basename>_page_<n>.<format>`. -/
def pdfImagePath (directory : PyStr) (page_to_render : Nat) (image_format : PyStr)
    (pdf_document : PyStr) : PyStr :=
  joinL directory
    ((splitextBase (basenameL pdf_document)).1 ++ "_page_".toList ++
      (Nat.repr page_to_render).toList ++ '.' :: image_format)

/-- One iteration of the loop, lines 121–150. -/
def processPdf (directory : PyStr) (page_to_render : Nat) (image_format : PyStr)
    (e : PdfEntry) : RenderResult :=
  if e.openOk = false then ⟨[], [], 0, 1⟩
  else if page_to_render < e.pageCount then
    if e.renderOk = false then ⟨[], [], 0, 1⟩
    else
      let ip := pdfImagePath directory page_to_render image_format (joinL directory e.name)
      if e.saveOk then ⟨[ip], [ip], 0, 0⟩
      else ⟨[ip], [], 0, 1⟩
  else ⟨[], [], 1, 0⟩

def mergeResults (r s : RenderResult) : RenderResult :=
  ⟨r.img_paths ++ s.img_paths, r.written ++ s.written,
   r.warnings + s.warnings, r.errors + s.errors⟩

def renderAll (directory : PyStr) (page_to_render : Nat) (image_format : PyStr) :
    List PdfEntry → RenderResult
  | [] => ⟨[], [], 0, 0⟩
  | e :: es =>
    mergeResults (processPdf directory page_to_render image_format e)
      (renderAll directory page_to_render image_format es)

/-- Embedding of `save_pdf_page_as_image_from_dir`: filter the listing to names ending
in `.pdf`, then run the loop. -/
def save_pdf_page_as_image_from_dir (directory : PyStr) (entries : List PdfEntry)
    (page_to_render : Nat) (image_format : PyStr) : RenderResult :=
  renderAll directory page_to_render image_format
    (entries.filter (fun e => (".pdf".toList).isSuffixOf e.name))

/-! ## `draw_ocr_boxes` (helpers.py lines 154–187)

The PIL image and drawing calls are opaque; the annotated image is
modelled as the source path together with the text lines whose rectangle
and label were drawn.  The filesystem the function touches is the set of
directories ensured by `os.makedirs` plus the image files written by
`image.save`.  The function body has no `return` statement, so the call
evaluates to Python's `None`, embedded as `Option.none`. -/

structure TextLine where
  bbox : List Float
  text : PyStr
  confidence : Float

structure OcrResult where
  text_lines : List TextLine

structure AnnotatedImage where
  source : PyStr
  drawn : List TextLine

structure OcrFS where
  dirs : List PyStr
  files : List (PyStr × AnnotatedImage)

def draw_ocr_boxes (image_path : PyStr) (ocr_result : OcrResult) (fs : OcrFS) :
    OcrFS × Option PyStr :=
  let image : AnnotatedImage := ⟨image_path, ocr_result.text_lines⟩
  let base_name := basenameL image_path
  let new_filename :=
    (splitextBase base_name).1 ++ "_text_ocr".toList ++ (splitextBase base_name).2
  let parent_dir := dirnameL (dirnameL image_path)
  let ocr_results_dir := joinL parent_dir "ocr_results".toList
  let new_image_path := joinL ocr_results_dir new_filename
  (⟨ocr_results_dir :: fs.dirs, (new_image_path, image) :: fs.files⟩, none)

/-! ## Claims about the path resolvers -/

/-- C3: for a non-existent dataset directory, `get_im_txt_pths` and
`get_im_pths` both raise `FileNotFoundError`; the outcome is the same
whatever files the directory would have contained, so the failure happens
before any listing. -/
theorem resolvers_raise_not_found (path : PyStr) (files : List PyStr)
    (exts : List PyStr) :
    get_im_txt_pths ⟨path, false, files⟩ exts = .error .fileNotFound ∧
    get_im_pths ⟨path, false, files⟩ exts = .error .fileNotFound :=
  ⟨rfl, rfl⟩

/-- C1 (code bug): on an existing directory whose scan yields no image
paths, and on one whose scan yields no `.txt` paths, `get_im_txt_pths`
raises `NameError`, not the `ValueError` the claim states: the f-string
inside the `raise ValueError(...)` reads the undefined variables `im_dir`
resp. `txt_dir` and fails first.  The third conjunct checks that the
length-mismatch branch, whose message only uses defined variables, does
raise `ValueError` as claimed. -/
theorem get_im_txt_pths_empty_raises_nameError :
    get_im_txt_pths ⟨"ds".toList, true, ["page1.txt".toList]⟩ defaultImExtensions
      = .error (.nameError "im_dir".toList) ∧
    get_im_txt_pths ⟨"ds".toList, true, ["page1.jpg".toList]⟩ defaultImExtensions
      = .error (.nameError "txt_dir".toList) ∧
    get_im_txt_pths ⟨"ds".toList, true,
        ["a.jpg".toList, "b.jpg".toList, "a.txt".toList]⟩ defaultImExtensions
      = .error .valueError :=
  ⟨by decide, by decide, by decide⟩

/-- C5: an existing directory in which no file matches the allowed image
extensions makes `get_im_pths` raise `ValueError`. -/
theorem get_im_pths_empty_raises (d : Dir) (exts : List PyStr)
    (hp : d.present = true) (h0 : get_files d exts = []) :
    get_im_pths d exts = .error .valueError := by
  simp [get_im_pths, hp, h0, natsorted]

/-- Witness for C5: a directory holding only `notes.txt` has no image
matching the default extensions. -/
theorem get_im_pths_empty_raises_witness :
    get_im_pths ⟨"ds".toList, true, ["notes.txt".toList]⟩ defaultImExtensions
      = .error .valueError :=
  get_im_pths_empty_raises _ _ rfl (by decide)

/-- C4: an existing directory with `N ≥ 1` files matching the allowed
image extensions and `N` files with extension `.txt` makes
`get_im_txt_pths` return exactly the two naturally sorted lists, each of
length `N`; the pairing between them is positional (the function returns
the plain pair of sorted lists, index `i` against index `i`). -/
theorem get_im_txt_pths_ok (d : Dir) (exts : List PyStr) (N : Nat)
    (hp : d.present = true) (hN : 1 ≤ N)
    (him : (get_files d exts).length = N)
    (htxt : (get_files d [txtExtension]).length = N) :
    get_im_txt_pths d exts
        = .ok (natsorted (get_files d exts), natsorted (get_files d [txtExtension])) ∧
    (natsorted (get_files d exts)).length = N ∧
    (natsorted (get_files d [txtExtension])).length = N ∧
    (natsorted (get_files d exts)).Sorted natLe ∧
    (natsorted (get_files d [txtExtension])).Sorted natLe := by
  have l1 : (natsorted (get_files d exts)).length = N := by
    rw [length_natsorted, him]
  have l2 : (natsorted (get_files d [txtExtension])).length = N := by
    rw [length_natsorted, htxt]
  have hne : ¬ N = 0 := by omega
  refine ⟨?_, l1, l2, sorted_natsorted _, sorted_natsorted _⟩
  simp [get_im_txt_pths, hp, l1, l2, hne]

/-- Witness for C4: two images and two annotation files, `N = 2`. -/
theorem get_im_txt_pths_ok_witness :
    get_im_txt_pths
        ⟨"ds".toList, true,
          ["im10.jpg".toList, "im2.jpg".toList, "im2.txt".toList, "im10.txt".toList]⟩
        defaultImExtensions
      = .ok
        (natsorted (get_files
          ⟨"ds".toList, true,
            ["im10.jpg".toList, "im2.jpg".toList, "im2.txt".toList, "im10.txt".toList]⟩
          defaultImExtensions),
         natsorted (get_files
          ⟨"ds".toList, true,
            ["im10.jpg".toList, "im2.jpg".toList, "im2.txt".toList, "im10.txt".toList]⟩
          [txtExtension])) ∧
    (natsorted (get_files
      ⟨"ds".toList, true,
        ["im10.jpg".toList, "im2.jpg".toList, "im2.txt".toList, "im10.txt".toList]⟩
      defaultImExtensions)).length = 2 ∧
    (natsorted (get_files
      ⟨"ds".toList, true,
        ["im10.jpg".toList, "im2.jpg".toList, "im2.txt".toList, "im10.txt".toList]⟩
      [txtExtension])).length = 2 ∧
    (natsorted (get_files
      ⟨"ds".toList, true,
        ["im10.jpg".toList, "im2.jpg".toList, "im2.txt".toList, "im10.txt".toList]⟩
      defaultImExtensions)).Sorted natLe ∧
    (natsorted (get_files
      ⟨"ds".toList, true,
        ["im10.jpg".toList, "im2.jpg".toList, "im2.txt".toList, "im10.txt".toList]⟩
      [txtExtension])).Sorted natLe :=
  get_im_txt_pths_ok _ _ 2 rfl (by decide) (by decide) (by decide)

/-! ## Claims about `draw_ocr_boxes`'s return value -/

/-- C10: whenever `draw_ocr_boxes` completes, its value is Python's
`None`; the path of the annotated image it writes is never returned. -/
theorem draw_ocr_boxes_returns_none (image_path : PyStr) (ocr_result : OcrResult)
    (fs : OcrFS) :
    (draw_ocr_boxes image_path ocr_result fs).2 = none :=
  rfl

/-! ## Claims about the PDF page rasterizer -/

theorem mergeResults_empty_left (r : RenderResult) :
    mergeResults ⟨[], [], 0, 0⟩ r = r := by
  cases r
  simp [mergeResults]

theorem renderAll_append (directory : PyStr) (page : Nat) (fmt : PyStr)
    (l1 l2 : List PdfEntry) :
    renderAll directory page fmt (l1 ++ l2)
      = mergeResults (renderAll directory page fmt l1)
          (renderAll directory page fmt l2) := by
  induction l1 with
  | nil => simp [renderAll, mergeResults_empty_left]
  | cons e es ih =>
    simp [renderAll, ih, mergeResults, List.append_assoc, Nat.add_assoc]

/-- The loop's returned list collects the documents that opened, had the
requested page and rendered it — `img_paths.append` runs before
`pix.save` — while the files actually written additionally require the
save to succeed. -/
theorem renderAll_paths_spec (directory : PyStr) (page : Nat) (fmt : PyStr)
    (l : List PdfEntry) :
    (renderAll directory page fmt l).img_paths
        = ((l.filter (fun e => e.openOk && decide (page < e.pageCount) && e.renderOk)).map
            (fun e => pdfImagePath directory page fmt (joinL directory e.name))) ∧
    (renderAll directory page fmt l).written
        = ((l.filter (fun e =>
              e.openOk && decide (page < e.pageCount) && e.renderOk && e.saveOk)).map
            (fun e => pdfImagePath directory page fmt (joinL directory e.name))) := by
  induction l with
  | nil => exact ⟨rfl, rfl⟩
  | cons e es ih =>
    obtain ⟨ih1, ih2⟩ := ih
    rcases e with ⟨n, op, pc, ro, so⟩
    by_cases hp : page < pc <;>
      cases op <;> cases ro <;> cases so <;>
        simp [renderAll, mergeResults, processPdf, List.filter_cons, hp, ih1, ih2]

/-- C2, amended: a path appears in the list returned by
`save_pdf_page_as_image_from_dir` exactly when its document was opened,
the requested page existed and the page was rendered; the subsequent
`pix.save` may still fail, in which case the path stays in the returned
list with no file written for it.  The second conjunct characterises the
successfully written paths, which need `saveOk` on top. -/
theorem save_pdf_returns_rendered_paths (directory : PyStr) (entries : List PdfEntry)
    (page : Nat) (fmt : PyStr) :
    (save_pdf_page_as_image_from_dir directory entries page fmt).img_paths
        = (((entries.filter (fun e => (".pdf".toList).isSuffixOf e.name)).filter
              (fun e => e.openOk && decide (page < e.pageCount) && e.renderOk)).map
            (fun e => pdfImagePath directory page fmt (joinL directory e.name))) ∧
    (save_pdf_page_as_image_from_dir directory entries page fmt).written
        = (((entries.filter (fun e => (".pdf".toList).isSuffixOf e.name)).filter
              (fun e =>
                e.openOk && decide (page < e.pageCount) && e.renderOk && e.saveOk)).map
            (fun e => pdfImagePath directory page fmt (joinL directory e.name))) :=
  renderAll_paths_spec directory page fmt
    (entries.filter (fun e => (".pdf".toList).isSuffixOf e.name))

/-- Counterexample to C2 as stated: a single PDF whose page renders but
whose `pix.save` raises.  Its path is in the returned list even though
the save did not complete (no file was written at all). -/
theorem save_pdf_returns_unwritten_path :
    (save_pdf_page_as_image_from_dir "docs".toList
        [⟨"a.pdf".toList, true, 1, true, false⟩] 0 "jpg".toList).img_paths
      = [pdfImagePath "docs".toList 0 "jpg".toList
          (joinL "docs".toList "a.pdf".toList)] ∧
    (save_pdf_page_as_image_from_dir "docs".toList
        [⟨"a.pdf".toList, true, 1, true, false⟩] 0 "jpg".toList).written
      = [] :=
  ⟨by decide, by decide⟩

/-- On a batch where every document opens, has the page, renders and
saves, the loop contributes one path per document. -/
theorem renderAll_good_length (directory : PyStr) (page : Nat) (fmt : PyStr)
    (l : List PdfEntry)
    (h : ∀ e ∈ l, e.openOk = true ∧ page < e.pageCount ∧ e.renderOk = true
        ∧ e.saveOk = true) :
    (renderAll directory page fmt l).img_paths.length = l.length := by
  induction l with
  | nil => rfl
  | cons e es ih =>
    obtain ⟨ho, hp, hr, hs⟩ := h e (List.mem_cons_self e es)
    have ihl := ih (fun x hx => h x (List.mem_cons_of_mem e hx))
    simp [renderAll, mergeResults, processPdf, ho, hp, hr, hs, ihl]

/-- C8: a PDF of the batch with too few pages (`pageCount ≤ page_to_render`)
is skipped with one out-of-range warning and no path, the remaining
documents being processed exactly as they would be without it (every
exception is caught inside the loop, so nothing propagates); in
particular a batch of three PDFs, of which exactly one is short and the
other two process fully, yields exactly two image paths. -/
theorem save_pdf_skips_out_of_range (directory : PyStr) (page : Nat) (fmt : PyStr)
    (l1 l2 : List PdfEntry) (bad : PdfEntry)
    (hname : (".pdf".toList).isSuffixOf bad.name = true)
    (hopen : bad.openOk = true)
    (hshort : bad.pageCount ≤ page) :
    (save_pdf_page_as_image_from_dir directory (l1 ++ bad :: l2) page fmt).img_paths
        = (save_pdf_page_as_image_from_dir directory l1 page fmt).img_paths
          ++ (save_pdf_page_as_image_from_dir directory l2 page fmt).img_paths ∧
    (save_pdf_page_as_image_from_dir directory (l1 ++ bad :: l2) page fmt).warnings
        = (save_pdf_page_as_image_from_dir directory l1 page fmt).warnings + 1
          + (save_pdf_page_as_image_from_dir directory l2 page fmt).warnings ∧
    ((∀ e ∈ l1 ++ l2, (".pdf".toList).isSuffixOf e.name = true ∧ e.openOk = true
        ∧ page < e.pageCount ∧ e.renderOk = true ∧ e.saveOk = true) →
      l1.length + l2.length = 2 →
      (save_pdf_page_as_image_from_dir directory
          (l1 ++ bad :: l2) page fmt).img_paths.length = 2) := by
  have hnotlt : ¬ page < bad.pageCount := by omega
  have hbadr : processPdf directory page fmt bad = ⟨[], [], 1, 0⟩ := by
    simp [processPdf, hopen, hnotlt]
  have hfil : (l1 ++ bad :: l2).filter (fun e => (".pdf".toList).isSuffixOf e.name)
      = l1.filter (fun e => (".pdf".toList).isSuffixOf e.name)
        ++ bad :: l2.filter (fun e => (".pdf".toList).isSuffixOf e.name) := by
    have hsuf : ['.', 'p', 'd', 'f'] <:+ bad.name :=
      List.isSuffixOf_iff_suffix.mp hname
    simp [List.filter_append, List.filter_cons, hsuf]
  have hsplit : save_pdf_page_as_image_from_dir directory (l1 ++ bad :: l2) page fmt
      = mergeResults (renderAll directory page fmt
          (l1.filter (fun e => (".pdf".toList).isSuffixOf e.name)))
          (mergeResults (processPdf directory page fmt bad)
            (renderAll directory page fmt
              (l2.filter (fun e => (".pdf".toList).isSuffixOf e.name)))) := by
    rw [save_pdf_page_as_image_from_dir, hfil, renderAll_append]
    rfl
  refine ⟨?_, ?_, ?_⟩
  · rw [hsplit, hbadr]
    simp [mergeResults, save_pdf_page_as_image_from_dir]
  · rw [hsplit, hbadr]
    simp only [mergeResults, save_pdf_page_as_image_from_dir]
    omega
  · intro hgood hlen
    have hf1 : l1.filter (fun e => (".pdf".toList).isSuffixOf e.name) = l1 :=
      List.filter_eq_self.mpr
        (fun e he => (hgood e (List.mem_append_left l2 he)).1)
    have hf2 : l2.filter (fun e => (".pdf".toList).isSuffixOf e.name) = l2 :=
      List.filter_eq_self.mpr
        (fun e he => (hgood e (List.mem_append_right l1 he)).1)
    have hg1 := renderAll_good_length directory page fmt l1
      (fun e he => (hgood e (List.mem_append_left l2 he)).2)
    have hg2 := renderAll_good_length directory page fmt l2
      (fun e he => (hgood e (List.mem_append_right l1 he)).2)
    rw [hsplit, hbadr]
    simp only [mergeResults, List.length_append, List.nil_append]
    rw [hf1, hf2, hg1, hg2]
    exact hlen

/-- Witness for C8: three PDFs, the middle one with zero pages while page
0 is requested, the other two fully successful: two paths come back and
one warning is logged. -/
theorem save_pdf_skips_out_of_range_witness :
    (save_pdf_page_as_image_from_dir "docs".toList
        [⟨"a.pdf".toList, true, 1, true, true⟩, ⟨"b.pdf".toList, true, 0, true, true⟩,
         ⟨"c.pdf".toList, true, 1, true, true⟩] 0 "jpg".toList).img_paths
        = (save_pdf_page_as_image_from_dir "docs".toList
            [⟨"a.pdf".toList, true, 1, true, true⟩] 0 "jpg".toList).img_paths
          ++ (save_pdf_page_as_image_from_dir "docs".toList
            [⟨"c.pdf".toList, true, 1, true, true⟩] 0 "jpg".toList).img_paths ∧
    (save_pdf_page_as_image_from_dir "docs".toList
        [⟨"a.pdf".toList, true, 1, true, true⟩, ⟨"b.pdf".toList, true, 0, true, true⟩,
         ⟨"c.pdf".toList, true, 1, true, true⟩] 0 "jpg".toList).warnings
        = (save_pdf_page_as_image_from_dir "docs".toList
            [⟨"a.pdf".toList, true, 1, true, true⟩] 0 "jpg".toList).warnings + 1
          + (save_pdf_page_as_image_from_dir "docs".toList
            [⟨"c.pdf".toList, true, 1, true, true⟩] 0 "jpg".toList).warnings ∧
    ((∀ e ∈ [⟨"a.pdf".toList, true, 1, true, true⟩,
          (⟨"c.pdf".toList, true, 1, true, true⟩ : PdfEntry)],
        (".pdf".toList).isSuffixOf e.name = true ∧ e.openOk = true
          ∧ 0 < e.pageCount ∧ e.renderOk = true ∧ e.saveOk = true) →
      ([⟨"a.pdf".toList, true, 1, true, true⟩] : List PdfEntry).length
          + ([⟨"c.pdf".toList, true, 1, true, true⟩] : List PdfEntry).length = 2 →
      (save_pdf_page_as_image_from_dir "docs".toList
          [⟨"a.pdf".toList, true, 1, true, true⟩, ⟨"b.pdf".toList, true, 0, true, true⟩,
           ⟨"c.pdf".toList, true, 1, true, true⟩] 0 "jpg".toList).img_paths.length = 2) :=
  save_pdf_skips_out_of_range "docs".toList 0 "jpg".toList
    [⟨"a.pdf".toList, true, 1, true, true⟩] [⟨"c.pdf".toList, true, 1, true, true⟩]
    ⟨"b.pdf".toList, true, 0, true, true⟩ (by decide) (by decide) (by decide)

/-! ## Claims about `copy_files_to_directory` -/

theorem copy_success_all_some (src : PyStr → Option Nat) (ps : List PyStr)
    (d : DirState) (h : (copy_files_to_directory src ps d).2 = none) :
    ∀ p ∈ ps, (src p).isSome = true := by
  induction ps generalizing d with
  | nil => intro p hp; cases hp
  | cons p ps ih =>
    intro q hq
    rcases hsp : src p with _ | c
    · rw [copy_files_to_directory, hsp] at h
      cases h
    · rw [copy_files_to_directory, hsp] at h
      rcases List.mem_cons.mp hq with rfl | hq'
      · rw [hsp]; rfl
      · exact ih _ h q hq'

theorem copy_success_eq (src : PyStr → Option Nat) (ps : List PyStr) (d : DirState)
    (h : ∀ p ∈ ps, (src p).isSome = true) :
    copy_files_to_directory src ps d = (applyCopies src ps d, none) := by
  induction ps generalizing d with
  | nil => rfl
  | cons p ps ih =>
    obtain ⟨c, hsp⟩ := Option.isSome_iff_exists.mp (h p (List.mem_cons_self p ps))
    rw [copy_files_to_directory, applyCopies, hsp]
    exact ih _ (fun q hq => h q (List.mem_cons_of_mem p hq))

theorem applyCopies_agree (src : PyStr → Option Nat) (ps : List PyStr)
    (d d' : DirState) (n : PyStr)
    (h : d n = d' n ∨ ∃ p ∈ ps, basenameL p = n) :
    applyCopies src ps d n = applyCopies src ps d' n := by
  induction ps generalizing d d' with
  | nil =>
    rcases h with h | ⟨p, hp, _⟩
    · exact h
    · cases hp
  | cons p ps ih =>
    rw [applyCopies, applyCopies]
    refine ih _ _ ?_
    by_cases hn : n = basenameL p
    · left; simp [hn]
    · rcases h with h | ⟨q, hq, hbq⟩
      · left; simp [hn, h]
      · rcases List.mem_cons.mp hq with rfl | hq'
        · exact absurd hbq.symm hn
        · right; exact ⟨q, hq', hbq⟩

theorem applyCopies_not_written (src : PyStr → Option Nat) (ps : List PyStr)
    (d : DirState) (n : PyStr) (h : ∀ p ∈ ps, basenameL p ≠ n) :
    applyCopies src ps d n = d n := by
  induction ps generalizing d with
  | nil => rfl
  | cons p ps ih =>
    rw [applyCopies]
    rw [ih _ (fun q hq => h q (List.mem_cons_of_mem p hq))]
    have : n ≠ basenameL p := fun hn => h p (List.mem_cons_self p ps) hn.symm
    simp [this]

theorem applyCopies_idem (src : PyStr → Option Nat) (ps : List PyStr) (d : DirState) :
    applyCopies src ps (applyCopies src ps d) = applyCopies src ps d := by
  funext n
  by_cases hw : ∃ p ∈ ps, basenameL p = n
  · exact applyCopies_agree src ps _ d n (Or.inr hw)
  · push_neg at hw
    rw [applyCopies_not_written src ps _ n hw]

/-- C6: `copy_files_to_directory` is idempotent: when a call succeeds, a
second call with the same arguments succeeds and leaves the destination
directory contents exactly as the first call did (same-name files are
overwritten with the same contents, not duplicated). -/
theorem copy_files_idempotent (src : PyStr → Option Nat) (ps : List PyStr)
    (d : DirState) (h : (copy_files_to_directory src ps d).2 = none) :
    copy_files_to_directory src ps (copy_files_to_directory src ps d).1
      = ((copy_files_to_directory src ps d).1, none) := by
  have hall := copy_success_all_some src ps d h
  rw [copy_success_eq src ps d hall]
  rw [copy_success_eq src _ _ hall, applyCopies_idem]

/-- Witness for C6: copying `s/a.txt` twice into the same directory. -/
theorem copy_files_idempotent_witness :
    copy_files_to_directory (fun p => if p = "s/a.txt".toList then some 1 else none)
        ["s/a.txt".toList]
        (copy_files_to_directory (fun p => if p = "s/a.txt".toList then some 1 else none)
          ["s/a.txt".toList] (fun _ => none)).1
      = ((copy_files_to_directory (fun p => if p = "s/a.txt".toList then some 1 else none)
          ["s/a.txt".toList] (fun _ => none)).1, none) :=
  copy_files_idempotent _ _ _ (by decide)

theorem copy_files_append (src : PyStr → Option Nat) (l1 rest : List PyStr)
    (d : DirState) (h : ∀ p ∈ l1, (src p).isSome = true) :
    copy_files_to_directory src (l1 ++ rest) d
      = copy_files_to_directory src rest (applyCopies src l1 d) := by
  induction l1 generalizing d with
  | nil => rfl
  | cons p ps ih =>
    obtain ⟨c, hsp⟩ := Option.isSome_iff_exists.mp (h p (List.mem_cons_self p ps))
    rw [List.cons_append, copy_files_to_directory, applyCopies, hsp]
    exact ih _ (fun q hq => h q (List.mem_cons_of_mem p hq))

/-- The content stored under `n` after a run of copies is the content of
the last source path whose basename is `n`, or the old content if none
wrote to `n`. -/
theorem applyCopies_eq_find (src : PyStr → Option Nat) (ps : List PyStr)
    (d : DirState) (n : PyStr) :
    applyCopies src ps d n
      = match ps.reverse.find? (fun p => decide (basenameL p = n)) with
        | some p => src p
        | none => d n := by
  induction ps generalizing d with
  | nil => rfl
  | cons p ps ih =>
    rw [applyCopies, ih, List.reverse_cons, List.find?_append]
    rcases hf : ps.reverse.find? (fun p => decide (basenameL p = n)) with _ | q
    · by_cases hn : basenameL p = n
      · simp [Option.or, List.find?, hn]
      · have hn' : ¬ n = basenameL p := fun hnn => hn hnn.symm
        simp [Option.or, List.find?, hn, hn']
    · simp [Option.or]

/-- C7: no rollback on partial failure.  When every copy in the first
segment succeeds and copying `bad` raises, the exception propagates
(`some bad` is the raised exception), the destination holds exactly the
files copied before the failure — in particular each of their basenames
is present — and no path after the failing one is copied (the final state
is `applyCopies src l1 d`, which does not involve `l2`). -/
theorem copy_files_no_rollback (src : PyStr → Option Nat) (l1 l2 : List PyStr)
    (bad : PyStr) (d : DirState)
    (h1 : ∀ p ∈ l1, (src p).isSome = true) (hbad : src bad = none) :
    copy_files_to_directory src (l1 ++ bad :: l2) d
        = (applyCopies src l1 d, some bad) ∧
    ∀ p ∈ l1, (applyCopies src l1 d (basenameL p)).isSome = true := by
  constructor
  · rw [copy_files_append src l1 (bad :: l2) d h1, copy_files_to_directory, hbad]
  · intro p hp
    rw [applyCopies_eq_find]
    have hex : (l1.reverse.find? (fun q => decide (basenameL q = basenameL p))).isSome
        = true :=
      List.find?_isSome.mpr ⟨p, List.mem_reverse.mpr hp, by simp⟩
    obtain ⟨q, hq⟩ := Option.isSome_iff_exists.mp hex
    rw [hq]
    exact h1 q (List.mem_reverse.mp (List.mem_of_find?_eq_some hq))

/-- Witness for C7: `a.txt` copies, `b.txt` raises, `c.txt` is never
reached. -/
theorem copy_files_no_rollback_witness :
    copy_files_to_directory (fun p => if p = "a.txt".toList then some 1 else none)
        (["a.txt".toList] ++ "b.txt".toList :: ["c.txt".toList]) (fun _ => none)
        = (applyCopies (fun p => if p = "a.txt".toList then some 1 else none)
            ["a.txt".toList] (fun _ => none), some "b.txt".toList) ∧
    ∀ p ∈ ["a.txt".toList],
      (applyCopies (fun p => if p = "a.txt".toList then some 1 else none)
        ["a.txt".toList] (fun _ => none) (basenameL p)).isSome = true :=
  copy_files_no_rollback _ _ _ _ _ (by decide) (by decide)

/-! ## Path algebra needed for the `draw_ocr_boxes` output-location claim -/

theorem mem_of_head?_some {l : PyStr} {a : Char} (h : l.head? = some a) : a ∈ l := by
  cases l with
  | nil => cases h
  | cons c cs =>
    rw [List.head?_cons] at h
    injection h with h
    rw [← h]
    exact List.mem_cons_self c cs

theorem takeWhile_all_eq {P : Char → Bool} {l : PyStr} (h : ∀ c ∈ l, P c = true) :
    l.takeWhile P = l := by
  induction l with
  | nil => rfl
  | cons c cs ih =>
    rw [List.takeWhile_cons, if_pos (h c (List.mem_cons_self c cs)),
      ih (fun x hx => h x (List.mem_cons_of_mem c hx))]

theorem takeWhile_append_stop {P : Char → Bool} {l r : PyStr} {x : Char}
    (h : ∀ c ∈ l, P c = true) (hx : P x = false) :
    (l ++ x :: r).takeWhile P = l := by
  induction l with
  | nil => simp [List.takeWhile_cons, hx]
  | cons c cs ih =>
    rw [List.cons_append, List.takeWhile_cons, if_pos (h c (List.mem_cons_self c cs)),
      ih (fun y hy => h y (List.mem_cons_of_mem c hy))]

theorem dropWhile_append_stop {P : Char → Bool} {l r : PyStr} {x : Char}
    (h : ∀ c ∈ l, P c = true) (hx : P x = false) :
    (l ++ x :: r).dropWhile P = x :: r := by
  induction l with
  | nil => simp [List.dropWhile_cons, hx]
  | cons c cs ih =>
    rw [List.cons_append, List.dropWhile_cons, if_pos (h c (List.mem_cons_self c cs)),
      ih (fun y hy => h y (List.mem_cons_of_mem c hy))]

/-- A basename never contains a slash. -/
theorem slash_not_mem_basenameL (p : PyStr) : '/' ∉ basenameL p := by
  intro hmem
  rw [basenameL, List.mem_reverse] at hmem
  have := List.mem_takeWhile_imp hmem
  simp at this

/-- Splitting a slash-free basename yields slash-free stem and extension. -/
theorem splitextBase_no_slash {b : PyStr} (hb : '/' ∉ b) :
    '/' ∉ (splitextBase b).1 ∧ '/' ∉ (splitextBase b).2 := by
  have hrest : ∀ x ∈ b.dropWhile (fun c => c == '.'), x ∈ b :=
    fun x hx => (List.dropWhile_sublist _).subset hx
  simp only [splitextBase]
  by_cases hc : (b.dropWhile (fun c => c == '.')).contains '.' = true
  · rw [if_pos hc]
    constructor
    · intro hmem
      rcases List.mem_append.mp hmem with h1 | h2
      · exact hb ((List.takeWhile_sublist _).subset h1)
      · have h3 := (List.dropLast_sublist _).subset h2
        rw [List.mem_reverse] at h3
        have h4 := (List.dropWhile_sublist _).subset h3
        rw [List.mem_reverse] at h4
        exact hb (hrest _ h4)
    · intro hmem
      rcases List.mem_cons.mp hmem with h1 | h2
      · cases h1
      · rw [List.mem_reverse] at h2
        have h3 := (List.takeWhile_sublist _).subset h2
        rw [List.mem_reverse] at h3
        exact hb (hrest _ h3)
  · rw [if_neg hc]
    exact ⟨hb, fun h => (List.not_mem_nil '/') h⟩

/-- Joining a slash-free final component: its basename is that component. -/
theorem basenameL_joinL (d f : PyStr) (hf : '/' ∉ f) : basenameL (joinL d f) = f := by
  have hfall : ∀ c ∈ f.reverse, (!(c == '/')) = true := by
    intro c hc
    rw [List.mem_reverse] at hc
    have hcne : c ≠ '/' := fun hcc => hf (hcc ▸ hc)
    simp [hcne]
  have hslash : (!('/' == '/')) = false := by simp
  have h1 : ¬ f.head? = some '/' := fun h => hf (mem_of_head?_some h)
  rw [joinL, if_neg h1]
  by_cases h2 : d = [] ∨ d.getLast? = some '/'
  · rw [if_pos h2]
    rcases h2 with rfl | hd
    · rw [List.nil_append, basenameL, takeWhile_all_eq hfall, List.reverse_reverse]
    · obtain ⟨t, ht⟩ : ∃ t, d.reverse = '/' :: t := by
        have hh : d.reverse.head? = some '/' := by rw [List.head?_reverse, hd]
        cases hr : d.reverse with
        | nil => rw [hr] at hh; cases hh
        | cons a t =>
          rw [hr, List.head?_cons] at hh
          injection hh with hh
          exact ⟨t, by rw [hh]⟩
      rw [basenameL, List.reverse_append, ht,
        takeWhile_append_stop hfall hslash, List.reverse_reverse]
  · rw [if_neg h2, basenameL]
    have hrev : (d ++ '/' :: f).reverse = f.reverse ++ '/' :: d.reverse := by
      rw [List.reverse_append, List.reverse_cons, List.append_assoc,
        List.singleton_append]
    rw [hrev, takeWhile_append_stop hfall hslash, List.reverse_reverse]

/-- Joining a nonempty, not-slash-terminated directory with a slash-free
component: the dirname of the result is the directory. -/
theorem dirnameL_joinL (d f : PyStr) (hd0 : d ≠ []) (hdl : d.getLast? ≠ some '/')
    (hf : '/' ∉ f) : dirnameL (joinL d f) = d := by
  have hfall : ∀ c ∈ f.reverse, (!(c == '/')) = true := by
    intro c hc
    rw [List.mem_reverse] at hc
    have hcne : c ≠ '/' := fun hcc => hf (hcc ▸ hc)
    simp [hcne]
  have hslash : (!('/' == '/')) = false := by simp
  have h1 : ¬ f.head? = some '/' := fun h => hf (mem_of_head?_some h)
  have h2 : ¬ (d = [] ∨ d.getLast? = some '/') := by
    push_neg
    exact ⟨hd0, hdl⟩
  rw [joinL, if_neg h1, if_neg h2]
  obtain ⟨a, t, hr⟩ : ∃ a t, d.reverse = a :: t := by
    cases hr : d.reverse with
    | nil => exact absurd (List.reverse_eq_nil_iff.mp hr) hd0
    | cons a t => exact ⟨a, t, rfl⟩
  have ha : d.getLast? = some a := by
    rw [← List.head?_reverse, hr, List.head?_cons]
  have hane : a ≠ '/' := fun hh => hdl (by rw [ha, hh])
  have hanb : (a == '/') = false := by simp [hane]
  have hrev : (d ++ '/' :: f).reverse = f.reverse ++ '/' :: d.reverse := by
    rw [List.reverse_append, List.reverse_cons, List.append_assoc,
      List.singleton_append]
  have hdrop : (d ++ '/' :: f).reverse.dropWhile (fun c => !(c == '/'))
      = '/' :: d.reverse := by
    rw [hrev]
    exact dropWhile_append_stop hfall hslash
  have hall : ¬ ((('/' :: d.reverse).reverse).all (fun c => c == '/') = true) := by
    intro hall
    have hmem : a ∈ ('/' :: d.reverse).reverse := by
      rw [List.mem_reverse]
      exact List.mem_cons_of_mem '/' (by rw [hr]; exact List.mem_cons_self a t)
    have := List.all_eq_true.mp hall a hmem
    rw [hanb] at this
    cases this
  have hstrip : ('/' :: d.reverse).reverse.reverse.dropWhile (fun c => c == '/')
      = d.reverse := by
    rw [List.reverse_reverse, List.dropWhile_cons]
    simp only [beq_self_eq_true, if_true]
    rw [hr, List.dropWhile_cons, hanb]
    simp
  simp only [dirnameL]
  rw [hdrop, if_neg hall, hstrip, List.reverse_reverse]

/-- The last character of a join is the last character of the nonempty
final component. -/
theorem getLast?_joinL (d f : PyStr) (hf : f ≠ []) :
    (joinL d f).getLast? = f.getLast? := by
  rw [joinL]
  by_cases h1 : f.head? = some '/'
  · rw [if_pos h1]
  rw [if_neg h1]
  by_cases h2 : d = [] ∨ d.getLast? = some '/'
  · rw [if_pos h2, List.getLast?_append_of_ne_nil d hf]
  · rw [if_neg h2, List.getLast?_append_of_ne_nil d (List.cons_ne_nil '/' f)]
    cases f with
    | nil => exact absurd rfl hf
    | cons a t => rw [List.getLast?_cons_cons]

/-- C9: `draw_ocr_boxes` writes exactly one new file; the directory it
lands in is `ocr_results` under the grandparent directory of the source
image (a directory the call ensures exists), and its basename is the
source basename's stem followed by `_text_ocr` and the original
extension. -/
theorem draw_ocr_boxes_output_location (image_path : PyStr) (ocr_result : OcrResult)
    (fs : OcrFS) :
    ∃ q : PyStr,
      (draw_ocr_boxes image_path ocr_result fs).1
        = ⟨joinL (dirnameL (dirnameL image_path)) "ocr_results".toList :: fs.dirs,
           (q, ⟨image_path, ocr_result.text_lines⟩) :: fs.files⟩ ∧
      dirnameL q = joinL (dirnameL (dirnameL image_path)) "ocr_results".toList ∧
      basenameL q
        = (splitextBase (basenameL image_path)).1 ++ "_text_ocr".toList
            ++ (splitextBase (basenameL image_path)).2 := by
  have hsplit := splitextBase_no_slash (slash_not_mem_basenameL image_path)
  have hfn : '/' ∉ (splitextBase (basenameL image_path)).1 ++ "_text_ocr".toList
      ++ (splitextBase (basenameL image_path)).2 := by
    intro hmem
    rcases List.mem_append.mp hmem with h12 | h3
    · rcases List.mem_append.mp h12 with h1 | h2
      · exact hsplit.1 h1
      · revert h2; decide
    · exact hsplit.2 h3
  have hD : (joinL (dirnameL (dirnameL image_path)) "ocr_results".toList).getLast?
      = some 's' := by
    rw [getLast?_joinL _ _ (by decide)]
    decide
  have hD0 : joinL (dirnameL (dirnameL image_path)) "ocr_results".toList ≠ [] := by
    intro h
    rw [h] at hD
    cases hD
  have hDl : (joinL (dirnameL (dirnameL image_path)) "ocr_results".toList).getLast?
      ≠ some '/' := by
    rw [hD]
    decide
  refine ⟨joinL (joinL (dirnameL (dirnameL image_path)) "ocr_results".toList)
      ((splitextBase (basenameL image_path)).1 ++ "_text_ocr".toList
        ++ (splitextBase (basenameL image_path)).2), rfl, ?_, ?_⟩
  · exact dirnameL_joinL _ _ hD0 hDl hfn
  · exact basenameL_joinL _ _ hfn

end PID
